import Mathlib

/-!
Verification of the sector-image engine (img.c): a shallow embedding of the
geometry resolver, track-map builder, interleave map, track-length
computation, the track-position decoder, and the read/write bitstream paths,
together with proofs of the specified properties.

Machine integers are modelled as `Nat`/`Int`; wherever C unsigned
subtraction cannot underflow on the reachable inputs, `Nat` truncated
subtraction coincides with the C value and is used directly.
-/

namespace Img

/-! ## Basic helpers (img.c) -/

/-- `sec_sz(n) = 128u << n`: byte length of a sector with size code `n`. -/
def sec_sz (n : ℕ) : ℕ := 128 <<< n

/-- `im_size`: logical image size.  C source:
`return (f_size(&im->fp) < im->img.base_off) ? 0 : (f_size(&im->fp) - im->img.base_off);` -/
def im_size (f_size base_off : ℕ) : ℕ :=
  if f_size < base_off then 0 else f_size - base_off

/-! ## File-layout flags and `file_idx` (img.c) -/

/-- `#define LAYOUT_sequential (1u<<0)` -/
def LAYOUT_sequential : ℕ := 1 <<< 0

/-- `#define LAYOUT_sides_swapped (1u<<1)` -/
def LAYOUT_sides_swapped : ℕ := 1 <<< 1

/-- `#define LAYOUT_reverse_side(x) (1u<<(2+(x)))` -/
def LAYOUT_reverse_side (x : ℕ) : ℕ := 1 <<< (2 + x)

/-- Geometry fields of `struct image` used by `file_idx`. -/
structure ImgGeom where
  layout : ℕ
  nr_cyls : ℕ
  nr_sides : ℕ

/-- `file_idx(im, cyl, side)` translated from the source:
```
_c = (im->img.layout & LAYOUT_reverse_side(side)) ? im->nr_cyls - cyl - 1 : cyl;
_s = (im->img.layout & LAYOUT_sides_swapped) ? side ^ (im->nr_sides - 1) : side;
return (im->img.layout & LAYOUT_sequential) ? (_s * im->nr_cyls) + _c
                                            : (_c * im->nr_sides) + _s;
``` -/
def file_idx (im : ImgGeom) (cyl side : ℕ) : ℕ :=
  let c := if im.layout &&& LAYOUT_reverse_side side ≠ 0
           then im.nr_cyls - cyl - 1 else cyl
  let s := if im.layout &&& LAYOUT_sides_swapped ≠ 0
           then side ^^^ (im.nr_sides - 1) else side
  if im.layout &&& LAYOUT_sequential ≠ 0
  then s * im.nr_cyls + c else c * im.nr_sides + s

/-- The spec's description of the file ordering, written independently with
explicit boolean flags:
`c := reverse_side[side] ? nr_cyls-1-cyl : cyl`;
`s := sides_swapped ? side ^ (nr_sides-1) : side`;
`idx := sequential ? s*nr_cyls + c : c*nr_sides + s`. -/
def specFileIdx (sequential sides_swapped rev0 rev1 : Bool)
    (nr_cyls nr_sides cyl side : ℕ) : ℕ :=
  let c := if (if side = 0 then rev0 else rev1) then nr_cyls - 1 - cyl else cyl
  let s := if sides_swapped then side ^^^ (nr_sides - 1) else side
  if sequential then s * nr_cyls + c else c * nr_sides + s

lemma and_one_shl_ne_zero_iff (n k : ℕ) : n &&& (1 <<< k) ≠ 0 ↔ n.testBit k := by
  rw [Nat.shiftLeft_eq, one_mul, Nat.and_two_pow]
  rcases h : n.testBit k with _ | _ <;> simp [h, Nat.pos_iff_ne_zero]

/-! ## Geometry-table matcher: `raw_type_open` (img.c) -/

/-- One entry of the `struct raw_type` geometry tables.  Only the fields the
size matcher reads are listed; `cyls` and `rpm` are 1-bit class selectors
(`_C(40)=0`, `_C(80)=1`).  The zero-`nr_secs` array terminator is modelled as
the end of the Lean list. -/
structure RawType where
  nr_secs : ℕ
  nr_sides : ℕ
  no : ℕ
  cyls : ℕ
  deriving DecidableEq

/-- Cylinder-count search of `raw_type_open`:
`for (nr_cyls = min_cyls; nr_cyls <= max_cyls; nr_cyls++) if ((nr_cyls * cyl_sz) == im_size(im)) goto found;`
Recursion is on the remaining count `k` of candidate cylinder values. -/
def findCylAux (cyl_sz imsz : ℕ) : ℕ → ℕ → Option ℕ
  | _, 0 => none
  | c, k + 1 => if c * cyl_sz = imsz then some c else findCylAux cyl_sz imsz (c + 1) k

/-- The class range chosen by the `switch (type->cyls)`: `_C(40)` gives
38..42, everything else (i.e. `_C(80)`, the only other 1-bit value) gives
77..85. -/
def cylBounds (cyls : ℕ) : ℕ × ℕ :=
  if cyls = 0 then (38, 42) else (77, 85)

/-- Per-entry cylinder size, `cyl_sz = type->nr_secs * (128 << type->no) * nr_sides`
where `nr_sides = type->nr_sides + 1`. -/
def cylSz (t : RawType) : ℕ := t.nr_secs * (128 <<< t.no) * (t.nr_sides + 1)

/-- The table walk of `raw_type_open`: first entry (in table order) admitting
a cylinder count whose total size matches, with the matched `nr_cyls`.
Returns the data `raw_type_open` materialises into the layout on success. -/
def raw_type_scan : List RawType → ℕ → Option (RawType × ℕ)
  | [], _ => none
  | t :: rest, imsz =>
    match findCylAux (cylSz t) imsz (cylBounds t.cyls).1
        ((cylBounds t.cyls).2 + 1 - (cylBounds t.cyls).1) with
    | some c => some (t, c)
    | none => raw_type_scan rest imsz

/-- The match predicate of the claim: `c` lies in the entry's class range and
`c * nr_secs * (128*2^no) * nr_sides` equals the logical image size. -/
def typeMatches (t : RawType) (c imsz : ℕ) : Prop :=
  (cylBounds t.cyls).1 ≤ c ∧ c ≤ (cylBounds t.cyls).2 ∧ c * cylSz t = imsz

instance (t : RawType) (c imsz : ℕ) : Decidable (typeMatches t c imsz) := by
  unfold typeMatches; infer_instance

lemma findCylAux_eq_some {cyl_sz imsz lo k c : ℕ}
    (h : findCylAux cyl_sz imsz lo k = some c) :
    lo ≤ c ∧ c < lo + k ∧ c * cyl_sz = imsz ∧
      ∀ c', lo ≤ c' → c' < c → ¬(c' * cyl_sz = imsz) := by
  induction k generalizing lo with
  | zero => simp [findCylAux] at h
  | succ k ih =>
    rw [findCylAux] at h
    split at h
    · rename_i heq
      cases h
      exact ⟨le_refl _, by omega, heq, fun c' h1 h2 => by omega⟩
    · rename_i hne
      obtain ⟨h1, h2, h3, h4⟩ := ih h
      refine ⟨by omega, by omega, h3, fun c' hc1 hc2 => ?_⟩
      rcases Nat.eq_or_lt_of_le hc1 with rfl | hlt
      · exact hne
      · exact h4 c' hlt hc2

lemma findCylAux_eq_none {cyl_sz imsz lo k : ℕ}
    (h : findCylAux cyl_sz imsz lo k = none) :
    ∀ c, lo ≤ c → c < lo + k → ¬(c * cyl_sz = imsz) := by
  induction k generalizing lo with
  | zero => omega
  | succ k ih =>
    rw [findCylAux] at h
    split at h
    · exact absurd h (by simp)
    · rename_i hne
      intro c hc1 hc2
      rcases Nat.eq_or_lt_of_le hc1 with rfl | hlt
      · exact hne
      · exact ih h c hlt (by omega)

lemma findCylAux_isSome_of_match {cyl_sz imsz lo k c : ℕ}
    (h1 : lo ≤ c) (h2 : c < lo + k) (h3 : c * cyl_sz = imsz) :
    (findCylAux cyl_sz imsz lo k).isSome := by
  cases hf : findCylAux cyl_sz imsz lo k with
  | some _ => rfl
  | none => exact absurd h3 (findCylAux_eq_none hf c h1 h2)

lemma cylBounds_le (x : ℕ) : (cylBounds x).1 ≤ (cylBounds x).2 := by
  unfold cylBounds; split <;> simp

lemma raw_type_scan_isSome {table : List RawType} {imsz : ℕ} :
    (raw_type_scan table imsz).isSome ↔ ∃ t ∈ table, ∃ c, typeMatches t c imsz := by
  induction table with
  | nil => simp [raw_type_scan]
  | cons t rest ih =>
    rw [raw_type_scan]
    cases hf : findCylAux (cylSz t) imsz (cylBounds t.cyls).1
        ((cylBounds t.cyls).2 + 1 - (cylBounds t.cyls).1) with
    | some c =>
      obtain ⟨h1, h2, h3, _⟩ := findCylAux_eq_some hf
      have hb := cylBounds_le t.cyls
      simp only [Option.isSome_some, true_iff]
      exact ⟨t, List.mem_cons_self _ _, c, h1, by omega, h3⟩
    | none =>
      have hnone := findCylAux_eq_none hf
      have hb := cylBounds_le t.cyls
      simp only [ih, List.mem_cons]
      constructor
      · rintro ⟨t', ht', c, hm⟩
        exact ⟨t', Or.inr ht', c, hm⟩
      · rintro ⟨t', ht' | ht', c, hm⟩
        · subst ht'
          obtain ⟨hm1, hm2, hm3⟩ := hm
          exact absurd hm3 (hnone c hm1 (by omega))
        · exact ⟨t', ht', c, hm⟩

lemma raw_type_scan_first {table : List RawType} {imsz : ℕ} {t : RawType} {c : ℕ}
    (h : raw_type_scan table imsz = some (t, c)) :
    typeMatches t c imsz ∧
    (∃ pre post, table = pre ++ t :: post ∧
      ∀ t' ∈ pre, ∀ c', ¬typeMatches t' c' imsz) ∧
    (∀ c' < c, ¬typeMatches t c' imsz) := by
  induction table with
  | nil => simp [raw_type_scan] at h
  | cons t0 rest ih =>
    rw [raw_type_scan] at h
    cases hf : findCylAux (cylSz t0) imsz (cylBounds t0.cyls).1
        ((cylBounds t0.cyls).2 + 1 - (cylBounds t0.cyls).1) with
    | some c0 =>
      rw [hf] at h
      obtain ⟨ht, hc⟩ : t0 = t ∧ c0 = c := by
        simpa using h
      rw [← ht, ← hc]
      obtain ⟨h1, h2, h3, h4⟩ := findCylAux_eq_some hf
      have hb := cylBounds_le t0.cyls
      refine ⟨⟨h1, by omega, h3⟩, ⟨[], rest, rfl, by simp⟩, ?_⟩
      rintro c' hc' ⟨hm1, hm2, hm3⟩
      exact h4 c' hm1 hc' hm3
    | none =>
      rw [hf] at h
      have hnone := findCylAux_eq_none hf
      have hb := cylBounds_le t0.cyls
      obtain ⟨hm, ⟨pre, post, hsplit, hpre⟩, hmin⟩ := ih h
      refine ⟨hm, ⟨t0 :: pre, post, by rw [hsplit]; rfl, ?_⟩, hmin⟩
      rintro t' ht' c' ⟨h1, h2, h3⟩
      rcases List.mem_cons.mp ht' with rfl | ht'
      · exact absurd h3 (hnone c' h1 (by omega))
      · exact hpre t' ht' c' ⟨h1, h2, h3⟩

/-! ## Heap table builder: `init_track_map` (img.c) -/

/-- `align_p(p) = (void *)((uint32_t)p & ~3)`: round an offset down to a
multiple of 4 (offsets are taken from the 4-byte-aligned buffer base). -/
def align_p (p : ℕ) : ℕ := p - p % 4

/-- `init_track_map` translated from the source.  Offsets are in bytes from
the base of the `read_data` buffer of length `read_data_len`; the buffer-top
pointer is offset `read_data_len`.  `F_die(FR_BAD_IMAGE)` (FORMAT-INVALID)
is the `.error` case, raised either by the explicit geometry bounds check or
by `check_p` when fewer than 1024 bytes would remain below the tables.
Unsigned C subtractions that would wrap below the buffer base also land in
the `check_p` failure; `Nat` truncated subtraction classifies those inputs
identically.  On success the zero-filled `trk_map` of `nr_cyls * nr_sides`
byte entries is returned. -/
def init_track_map (nr_cyls nr_sides read_data_len : ℕ) : Except Unit (List ℕ) :=
  if nr_sides < 1 ∨ nr_sides > 2 ∨ nr_cyls < 1 ∨ nr_cyls > 255 then
    .error ()
  else if align_p (read_data_len - nr_cyls * nr_sides - 256) < 1024 then
    .error ()
  else
    .ok (List.replicate (nr_cyls * nr_sides) 0)

/-! ## ATR opener: `atr_open` (img.c) -/

/-- `#define ATR_RATE(_r) ((_r) + (_r)/25)` -/
def ATR_RATE (r : ℕ) : ℕ := r + r / 25

/-- `#define ATR_INTERLEAVE(_secs) ((_secs)/2)` -/
def ATR_INTERLEAVE (secs : ℕ) : ℕ := secs / 2

/-- The geometry `atr_open` populates: global fields plus the two track
layouts (track 0, and all other tracks), each a list of `(r, n)` sector
descriptors. -/
structure AtrResult where
  nr_cyls : ℕ
  nr_sides : ℕ
  nr_sectors : ℕ
  is_fm : Bool
  data_rate : ℕ
  invert_data : Bool
  base_off : ℕ
  interleave : ℕ
  trk0_secs : List (ℕ × ℕ)
  trkN_secs : List (ℕ × ℕ)
  deriving DecidableEq

/-- `atr_open` translated from the source, as a function of the 16-byte
header fields (already little-endian decoded): reject unless
`sig == 0x0296`; `sz = size_lo << 4`; `no = size_sec / 256`; default
40-1-18 256b/s MFM at `ATR_RATE(250)`; if `no == 0` choose FM at
`ATR_RATE(125)` when `sz < 130*1024` else 26-sector MFM; else two sides
when `sz >= 360*1024 - 3*128`.  Both track layouts carry sectors
`r = j+1` with size code `no`; track 0's first three sectors are then
forced to `n = 0`; `base_off = 16`; `invert_data = TRUE`. -/
def atr_open (sig size_lo size_sec : ℕ) : Option AtrResult :=
  if sig ≠ 0x0296 then none
  else
    let sz := size_lo <<< 4
    let no := size_sec / 256
    let d : ℕ × ℕ × Bool × ℕ :=
      if no = 0 then
        if sz < 130 * 1024 then (18, 1, true, ATR_RATE 125)
        else (26, 1, false, ATR_RATE 250)
      else if sz ≥ 360 * 1024 - 3 * 128 then (18, 2, false, ATR_RATE 250)
      else (18, 1, false, ATR_RATE 250)
    let nr_sectors := d.1
    let nr_sides := d.2.1
    let is_fm := d.2.2.1
    let rate := d.2.2.2
    let secs := (List.range nr_sectors).map fun j => (j + 1, no)
    let trk0 := (List.range nr_sectors).map fun j => (j + 1, if j < 3 then 0 else no)
    some { nr_cyls := 40, nr_sides := nr_sides, nr_sectors := nr_sectors,
           is_fm := is_fm, data_rate := rate, invert_data := true,
           base_off := 16, interleave := ATR_INTERLEAVE nr_sectors,
           trk0_secs := trk0, trkN_secs := secs }

/-! ## Interleave map: the sector-map construction in `raw_seek_track` -/

/-- The probe loop
`while (im->img.sec_map[pos] != 0xff) pos = (pos + 1) % trk->nr_sectors;`.
The map is a function from slot index to logical sector number, with the
0xff "empty" sentinel modelled as `none`; `fuel` bounds the number of
probes (a fuel of `nr_sectors` always suffices, as proved below). -/
def findFreeSlot (m : ℕ → Option ℕ) (n : ℕ) : ℕ → ℕ → Option ℕ
  | 0, _ => none
  | fuel + 1, pos =>
    if m pos = none then some pos else findFreeSlot m n fuel ((pos + 1) % n)

/-- `im->img.sec_map[slot] = v` as a pointwise function update. -/
def slotSet (m : ℕ → Option ℕ) (slot v : ℕ) : ℕ → Option ℕ :=
  fun j => if j = slot then some v else m j

/-- The placement loop
```
for (i = 0; i < trk->nr_sectors; i++) {
    while (im->img.sec_map[pos] != 0xff) pos = (pos + 1) % trk->nr_sectors;
    im->img.sec_map[pos] = i;
    pos = (pos + trk->interleave) % trk->nr_sectors;
}
```
with `i` the number of sectors already placed and `r` those remaining;
`none` reports probe-fuel exhaustion (shown below to never happen). -/
def secMapAux (n interleave : ℕ) : (ℕ → Option ℕ) → ℕ → ℕ → ℕ → Option (ℕ → Option ℕ)
  | m, _, _, 0 => some m
  | m, pos, i, r + 1 =>
    match findFreeSlot m n n pos with
    | none => none
    | some slot =>
      secMapAux n interleave (slotSet m slot i) ((slot + interleave) % n) (i + 1) r

/-- The `sec_map` built by `raw_seek_track` for a track with `nr_sectors = n`:
`pos = ((cyl*trk->cskew) + (side*trk->hskew)) % trk->nr_sectors`, map
initially all-empty (`memset(im->img.sec_map, 0xff, trk->nr_sectors)`). -/
def raw_sec_map (n interleave cyl cskew side hskew : ℕ) : Option (ℕ → Option ℕ) :=
  secMapAux n interleave (fun _ => none) ((cyl * cskew + side * hskew) % n) 0 n

/-- Invariant after `i` placements: only slots below `n` are filled, filled
values lie below `i`, every value below `i` occurs, and no value occurs
twice. -/
def SecInv (n i : ℕ) (m : ℕ → Option ℕ) : Prop :=
  (∀ j, m j ≠ none → j < n) ∧
  (∀ j v, m j = some v → v < i) ∧
  (∀ v, v < i → ∃ j, j < n ∧ m j = some v) ∧
  (∀ j1 j2 v, m j1 = some v → m j2 = some v → j1 = j2)

lemma findFreeSlot_some {m : ℕ → Option ℕ} {n fuel pos slot : ℕ}
    (hn : 0 < n) (hpos : pos < n)
    (h : findFreeSlot m n fuel pos = some slot) :
    m slot = none ∧ slot < n := by
  induction fuel generalizing pos with
  | zero => simp [findFreeSlot] at h
  | succ fuel ih =>
    rw [findFreeSlot] at h
    split at h
    · rename_i hfree
      cases h
      exact ⟨hfree, hpos⟩
    · exact ih (Nat.mod_lt _ hn) h

lemma findFreeSlot_isSome {m : ℕ → Option ℕ} {n : ℕ} (hn : 0 < n) :
    ∀ fuel pos, pos < n → (∃ k, k < fuel ∧ m ((pos + k) % n) = none) →
      (findFreeSlot m n fuel pos).isSome := by
  intro fuel
  induction fuel with
  | zero => omega
  | succ fuel ih =>
    intro pos hpos ⟨k, hk, hfree⟩
    rw [findFreeSlot]
    split
    · rfl
    · rename_i hfilled
      apply ih _ (Nat.mod_lt _ hn)
      have hk0 : k ≠ 0 := by
        rintro rfl
        rw [Nat.add_zero, Nat.mod_eq_of_lt hpos] at hfree
        exact hfilled hfree
      refine ⟨k - 1, by omega, ?_⟩
      have : ((pos + 1) % n + (k - 1)) % n = (pos + k) % n := by
        rw [Nat.mod_add_mod]
        congr 1
        omega
      rwa [this]

lemma findFreeSlot_isSome_of_free {m : ℕ → Option ℕ} {n pos j : ℕ}
    (hpos : pos < n) (hj : j < n) (hfree : m j = none) :
    (findFreeSlot m n n pos).isSome := by
  have hn : 0 < n := by omega
  apply findFreeSlot_isSome hn n pos hpos
  refine ⟨(j + n - pos) % n, Nat.mod_lt _ hn, ?_⟩
  rw [Nat.add_mod_mod, show pos + (j + n - pos) = j + n by omega,
    Nat.add_mod_right, Nat.mod_eq_of_lt hj, hfree]

/-- When fewer than `n` values are placed, some slot below `n` is free
(pigeonhole on the injective slot-to-value map). -/
lemma exists_free_slot {n i : ℕ} {m : ℕ → Option ℕ}
    (hi : i < n) (hinv : SecInv n i m) : ∃ j, j < n ∧ m j = none := by
  obtain ⟨hbound, hval, hsurj, hinj⟩ := hinv
  by_contra hno
  push_neg at hno
  have hfilled : ∀ j ∈ Finset.range n, ((m j).getD 0) ∈ Finset.range i := by
    intro j hj
    rw [Finset.mem_range] at hj
    cases hm : m j with
    | none => exact absurd hm (hno j hj)
    | some v => simpa using hval j v hm
  have hinjOn : Set.InjOn (fun j => (m j).getD 0) (Finset.range n) := by
    intro j1 hj1 j2 hj2 heq
    simp only [Finset.coe_range, Set.mem_Iio] at hj1 hj2
    cases hm1 : m j1 with
    | none => exact absurd hm1 (hno j1 hj1)
    | some v1 =>
      cases hm2 : m j2 with
      | none => exact absurd hm2 (hno j2 hj2)
      | some v2 =>
        simp only [hm1, hm2, Option.getD_some] at heq
        exact hinj j1 j2 v1 hm1 (heq ▸ hm2)
  have hcard := Finset.card_le_card_of_injOn _ hfilled hinjOn
  simp only [Finset.card_range] at hcard
  omega

lemma secMapAux_spec {n interleave : ℕ} :
    ∀ r m pos i, i + r = n → pos < n → SecInv n i m →
      ∃ m', secMapAux n interleave m pos i r = some m' ∧ SecInv n n m' := by
  intro r
  induction r with
  | zero =>
    intro m pos i hir _ hinv
    exact ⟨m, rfl, by rwa [show i = n by omega] at hinv⟩
  | succ r ih =>
    intro m pos i hir hpos hinv
    have hi : i < n := by omega
    obtain ⟨j, hj, hfree⟩ := exists_free_slot hi hinv
    have hsome := findFreeSlot_isSome_of_free hpos hj hfree
    obtain ⟨slot, hslot⟩ := Option.isSome_iff_exists.mp hsome
    obtain ⟨hslot_free, hslot_lt⟩ := findFreeSlot_some (by omega) hpos hslot
    obtain ⟨hbound, hval, hsurj, hinj⟩ := hinv
    have hset_self : slotSet m slot i slot = some i := by simp [slotSet]
    have hset_other : ∀ j', j' ≠ slot → slotSet m slot i j' = m j' := by
      intro j' hne
      simp [slotSet, hne]
    have hinv' : SecInv n (i + 1) (slotSet m slot i) := by
      refine ⟨?_, ?_, ?_, ?_⟩
      · intro j' hj'
        by_cases hc : j' = slot
        · omega
        · rw [hset_other j' hc] at hj'
          exact hbound j' hj'
      · intro j' v hv
        by_cases hc : j' = slot
        · subst hc
          rw [hset_self] at hv
          cases hv
          omega
        · rw [hset_other j' hc] at hv
          have := hval j' v hv
          omega
      · intro v hv
        by_cases hc : v = i
        · subst hc
          exact ⟨slot, hslot_lt, hset_self⟩
        · obtain ⟨j', hj', hmj'⟩ := hsurj v (by omega)
          have hne : j' ≠ slot := by
            rintro rfl
            rw [hslot_free] at hmj'
            cases hmj'
          exact ⟨j', hj', by rw [hset_other j' hne]; exact hmj'⟩
      · intro j1 j2 v h1 h2
        by_cases hc1 : j1 = slot <;> by_cases hc2 : j2 = slot
        · rw [hc1, hc2]
        · subst hc1
          rw [hset_self] at h1
          cases h1
          rw [hset_other j2 hc2] at h2
          have := hval j2 _ h2
          omega
        · subst hc2
          rw [hset_self] at h2
          cases h2
          rw [hset_other j1 hc1] at h1
          have := hval j1 _ h1
          omega
        · rw [hset_other j1 hc1] at h1
          rw [hset_other j2 hc2] at h2
          exact hinj j1 j2 v h1 h2
    obtain ⟨m', hm', hfinal⟩ := ih (slotSet m slot i) ((slot + interleave) % n)
      (i + 1) (by omega) (Nat.mod_lt _ (by omega)) hinv'
    refine ⟨m', ?_, hfinal⟩
    rw [secMapAux, hslot]
    exact hm'

/-- From the completed invariant, every slot below `n` is filled (counting:
the value-to-slot assignment is injective into `range n`). -/
lemma secInv_total {n : ℕ} {m : ℕ → Option ℕ} (hinv : SecInv n n m) :
    ∀ j, j < n → ∃ v, v < n ∧ m j = some v := by
  obtain ⟨hbound, hval, hsurj, hinj⟩ := hinv
  have hchoice : ∀ v ∈ Finset.range n, ∃ j, j < n ∧ m j = some v := by
    intro v hv
    exact hsurj v (Finset.mem_range.mp hv)
  classical
  let g : ℕ → ℕ := fun v => if h : v < n then (hsurj v h).choose else 0
  have hg : ∀ v, v < n → g v < n ∧ m (g v) = some v := by
    intro v hv
    simpa [g, hv] using (hsurj v hv).choose_spec
  have hginj : Set.InjOn g (Finset.range n) := by
    intro v1 hv1 v2 hv2 heq
    simp only [Finset.coe_range, Set.mem_Iio] at hv1 hv2
    have h1 := (hg v1 hv1).2
    have h2 := (hg v2 hv2).2
    rw [heq] at h1
    rw [h1] at h2
    exact Option.some.inj h2
  have hmaps : ∀ v ∈ Finset.range n, g v ∈ Finset.range n := by
    intro v hv
    exact Finset.mem_range.mpr (hg v (Finset.mem_range.mp hv)).1
  have himg : (Finset.range n).image g = Finset.range n := by
    apply Finset.eq_of_subset_of_card_le
    · intro x hx
      obtain ⟨v, hv, rfl⟩ := Finset.mem_image.mp hx
      exact hmaps v hv
    · rw [Finset.card_image_of_injOn hginj]
  intro j hj
  have : j ∈ (Finset.range n).image g := by
    rw [himg]; exact Finset.mem_range.mpr hj
  obtain ⟨v, hv, hgv⟩ := Finset.mem_image.mp this
  have hvn := Finset.mem_range.mp hv
  exact ⟨v, hvn, hgv ▸ (hg v hvn).2⟩

/-! ## MFM track preparation: `mfm_prep_track` (img.c) -/

/-- `#define MFM_GAP_1 50` (post-IAM). -/
def MFM_GAP_1 : ℕ := 50

/-- `#define MFM_GAP_2 22` (post-IDAM). -/
def MFM_GAP_2 : ℕ := 22

/-- `#define MFM_GAP_4A 80` (post-index). -/
def MFM_GAP_4A : ℕ := 80

/-- `#define MFM_GAP_SYNC 12`. -/
def MFM_GAP_SYNC : ℕ := 12

/-- `const uint8_t GAP_3[] = { 32, 54, 84, 116, 255, 255, 255, 255 }` in
`mfm_prep_track`, indexed by the first sector's size code (≤ 6 after
`finalise_track_map`). -/
def mfmGap3Tab : List ℕ := [32, 54, 84, 116, 255, 255, 255, 255]

/-- The fields of `struct raw_trk` that `mfm_prep_track` reads.  The gap
fields are `int16_t` with `-1` meaning "auto"; `nr_sectors` is
`sec_n.length`, where `sec_n` lists the size codes of
`sec_info[0 .. nr_sectors)`.  `rpm` has already been defaulted to 300 by
`raw_seek_track` (`trk->rpm = trk->rpm ?: 300`). -/
structure RawTrk where
  gap_2 : ℤ
  gap_3 : ℤ
  gap_4a : ℤ
  has_iam : Bool
  rpm : ℕ
  data_rate : ℕ
  sec_n : List ℕ

/-- Initial `trk->gap_2` after the auto default (`MFM_GAP_2 = 22`). -/
def mfmG2i (trk : RawTrk) : ℕ :=
  if trk.gap_2 < 0 then MFM_GAP_2 else trk.gap_2.toNat

/-- Initial `trk->gap_3` after the auto default (`0`, updated later). -/
def mfmG3i (trk : RawTrk) : ℕ :=
  if trk.gap_3 < 0 then 0 else trk.gap_3.toNat

/-- `trk->gap_4a` after the auto default (`MFM_GAP_4A = 80`). -/
def mfmG4a (trk : RawTrk) : ℕ :=
  if trk.gap_4a < 0 then MFM_GAP_4A else trk.gap_4a.toNat

/-- `im->img.idx_sz = trk->gap_4a; if (trk->has_iam) idx_sz += MFM_GAP_SYNC + 4 + MFM_GAP_1;` -/
def mfmIdxSz (trk : RawTrk) : ℕ :=
  mfmG4a trk + (if trk.has_iam then MFM_GAP_SYNC + 4 + MFM_GAP_1 else 0)

/-- `im->img.idam_sz = MFM_GAP_SYNC + 8 + 2 + trk->gap_2;` plus
`idam_sz += im->img.post_crc_syncs;` (initial value, before the ED
adjustment). -/
def mfmIdamSzI (trk : RawTrk) (pcs : ℕ) : ℕ :=
  MFM_GAP_SYNC + 8 + 2 + mfmG2i trk + pcs

/-- `im->img.dam_sz_pre = MFM_GAP_SYNC + 4;` -/
def mfmDamSzPre : ℕ := MFM_GAP_SYNC + 4

/-- `im->img.dam_sz_post = 2 + trk->gap_3;` plus
`dam_sz_post += im->img.post_crc_syncs;` (initial value, before the auto
GAP3 is added). -/
def mfmDamSzPostI (trk : RawTrk) (pcs : ℕ) : ℕ :=
  2 + mfmG3i trk + pcs

/-- The minimum-track-length loop:
```
tracklen = im->img.idx_sz;
for (i = 0; i < trk->nr_sectors; i++)
    tracklen += enc_sec_sz(im, &im->img.sec_info[i]);
tracklen *= 16;
``` -/
def encTracklen (idx idam pre post : ℕ) (secs : List ℕ) : ℕ :=
  (idx + secs.foldl (fun a n => a + (idam + pre + sec_sz n + post)) 0) * 16

/-- Minimum track length before rate inference. -/
def mfmTracklen0 (trk : RawTrk) (pcs : ℕ) : ℕ :=
  encTracklen (mfmIdxSz trk) (mfmIdamSzI trk pcs) mfmDamSzPre
    (mfmDamSzPostI trk pcs) trk.sec_n

/-- Data-rate inference:
```
for (i = 1; i < 3; i++) {
    uint32_t maxlen = (((50000u * 300) / trk->rpm) << i) + 5000;
    if (tracklen < maxlen) break;
}
trk->data_rate = 125u << i;
```
only run when `trk->data_rate == 0`. -/
def mfmRate (trk : RawTrk) (pcs : ℕ) : ℕ :=
  if trk.data_rate = 0 then
    125 <<< (if mfmTracklen0 trk pcs < ((50000 * 300 / trk.rpm) <<< 1) + 5000 then 1
             else if mfmTracklen0 trk pcs < ((50000 * 300 / trk.rpm) <<< 2) + 5000 then 2
             else 3)
  else trk.data_rate

/-- The ED adjustment guard `auto_gap_2 && (trk->data_rate >= 1000)`. -/
def mfmEdCond (trk : RawTrk) (pcs : ℕ) : Prop :=
  trk.gap_2 < 0 ∧ 1000 ≤ mfmRate trk pcs

instance (trk : RawTrk) (pcs : ℕ) : Decidable (mfmEdCond trk pcs) := by
  unfold mfmEdCond; infer_instance

/-- Final `trk->gap_2` (41 at ED rate when auto). -/
def mfmG2f (trk : RawTrk) (pcs : ℕ) : ℕ :=
  if mfmEdCond trk pcs then 41 else mfmG2i trk

/-- Final `im->img.idam_sz` after
`im->img.idam_sz += trk->gap_2 - old_gap_2;`. -/
def mfmIdamSz (trk : RawTrk) (pcs : ℕ) : ℕ :=
  mfmIdamSzI trk pcs + (mfmG2f trk pcs - mfmG2i trk)

/-- Track length after the ED adjustment
`tracklen += 16 * trk->nr_sectors * (trk->gap_2 - old_gap_2);`. -/
def mfmTracklen1 (trk : RawTrk) (pcs : ℕ) : ℕ :=
  mfmTracklen0 trk pcs + 16 * trk.sec_n.length * (mfmG2f trk pcs - mfmG2i trk)

/-- `im->tracklen_bc = (trk->data_rate * 400 * 300) / trk->rpm;` (the
standard track length target). -/
def mfmTarget (trk : RawTrk) (pcs : ℕ) : ℕ :=
  mfmRate trk pcs * 400 * 300 / trk.rpm

/-- The auto-GAP3 guard `(trk->nr_sectors != 0) && auto_gap_3`. -/
def mfmAuto3Cond (trk : RawTrk) : Prop :=
  trk.sec_n.length ≠ 0 ∧ trk.gap_3 < 0

instance (trk : RawTrk) : Decidable (mfmAuto3Cond trk) := by
  unfold mfmAuto3Cond; infer_instance

/-- Final `trk->gap_3`:
```
int space = max_t(int, 0, im->tracklen_bc - tracklen);
uint8_t no = im->img.sec_info[0].n;
trk->gap_3 = min_t(int, space/(16*trk->nr_sectors), GAP_3[no]);
```
(`Nat` truncated subtraction is exactly `max(0, a - b)`). -/
def mfmG3f (trk : RawTrk) (pcs : ℕ) : ℕ :=
  if mfmAuto3Cond trk then
    min ((mfmTarget trk pcs - mfmTracklen1 trk pcs) / (16 * trk.sec_n.length))
      (mfmGap3Tab.getD (trk.sec_n.headD 0) 0)
  else mfmG3i trk

/-- Final `im->img.dam_sz_post` after `dam_sz_post += trk->gap_3;` in the
auto-GAP3 branch. -/
def mfmDamSzPost (trk : RawTrk) (pcs : ℕ) : ℕ :=
  if mfmAuto3Cond trk then mfmDamSzPostI trk pcs + mfmG3f trk pcs
  else mfmDamSzPostI trk pcs

/-- Final minimum track length after
`tracklen += 16 * trk->nr_sectors * trk->gap_3;` in the auto-GAP3 branch. -/
def mfmTracklen (trk : RawTrk) (pcs : ℕ) : ℕ :=
  if mfmAuto3Cond trk then
    mfmTracklen1 trk pcs + 16 * trk.sec_n.length * mfmG3f trk pcs
  else mfmTracklen1 trk pcs

/-- Final `im->tracklen_bc`:
```
im->tracklen_bc = max_t(uint32_t, im->tracklen_bc, tracklen);
im->tracklen_bc = (im->tracklen_bc + 31) & ~31;
```
(clearing the low five bits of a value rounds it down to a multiple of 32). -/
def mfmTracklenBc (trk : RawTrk) (pcs : ℕ) : ℕ :=
  (max (mfmTarget trk pcs) (mfmTracklen trk pcs) + 31) / 32 * 32

/-- `im->img.gap_4 = (im->tracklen_bc - tracklen) / 16;` -/
def mfmGap4 (trk : RawTrk) (pcs : ℕ) : ℕ :=
  (mfmTracklenBc trk pcs - mfmTracklen trk pcs) / 16

/-! ## Track-position decoder: `calc_start_pos` (img.c) -/

/-- The per-track state `calc_start_pos` reads: `im->img.track_delay_bc`,
`im->tracklen_bc`, the encoder field sizes, the rotational sector map
(`sec_map`, length `nr_sectors`) and the size codes of `sec_info` (by
logical index). -/
structure DecoderGeom where
  track_delay_bc : ℕ
  tracklen_bc : ℕ
  idx_sz : ℕ
  idam_sz : ℕ
  dam_sz_pre : ℕ
  dam_sz_post : ℕ
  sec_map : List ℕ
  sec_n : List ℕ

/-- The decoder cursor returned by `calc_start_pos` (fields of `im->img`
plus the returned `decode_off`). -/
structure StartPos where
  decode_pos : ℕ
  trk_sec : ℕ
  rd_sec_pos : ℕ
  decode_data_pos : ℕ
  crc : ℕ
  decode_off : ℕ
  deriving DecidableEq

/-- The sector walk of `calc_start_pos`:
```
for (i = 0; i < trk->nr_sectors; i++) {
    sec = &im->img.sec_info[*sec_map++];
    ess = enc_sec_sz(im, sec);
    if (decode_off < ess) break;
    decode_off -= ess;
}
```
Returns the stop index `i`, the remaining offset, and the entered sector's
size code (`none` when the walk falls off the end: pre-index gap). -/
def cspWalk (g : DecoderGeom) : List ℕ → ℕ → ℕ → ℕ × ℕ × Option ℕ
  | [], off, i => (i, off, none)
  | s :: rest, off, i =>
    let n := g.sec_n.getD s 0
    let ess := g.idam_sz + g.dam_sz_pre + sec_sz n + g.dam_sz_post
    if off < ess then (i, off, some n)
    else cspWalk g rest (off - ess) (i + 1)

/-- `calc_start_pos` translated from the source.  `bc` is `int32_t`:
`bc = im->cur_bc - im->img.track_delay_bc; if (bc < 0) bc += im->tracklen_bc;`
after which it is non-negative on every reachable track
(`track_delay_bc ≤ tracklen_bc`), so `Int.toNat` is exact. -/
def calc_start_pos (g : DecoderGeom) (cur_bc : ℕ) : StartPos :=
  let bc0 : ℤ := (cur_bc : ℤ) - (g.track_delay_bc : ℤ)
  let bc : ℤ := if bc0 < 0 then bc0 + (g.tracklen_bc : ℤ) else bc0
  let decode_off := (bc / 16).toNat
  let nr := g.sec_map.length
  if decode_off < g.idx_sz then
    { decode_pos := 0, trk_sec := 0, rd_sec_pos := 0, decode_data_pos := 0,
      crc := 0xffff, decode_off := decode_off }
  else
    match cspWalk g g.sec_map (decode_off - g.idx_sz) 0 with
    | (i, off, some n) =>
      if off < g.idam_sz then
        { decode_pos := i * 4 + 1, trk_sec := i, rd_sec_pos := 0,
          decode_data_pos := 0, crc := 0xffff, decode_off := off }
      else if off - g.idam_sz < g.dam_sz_pre then
        { decode_pos := i * 4 + 2, trk_sec := i, rd_sec_pos := 0,
          decode_data_pos := 0, crc := 0xffff, decode_off := off - g.idam_sz }
      else if off - g.idam_sz - g.dam_sz_pre < sec_sz n then
        { decode_pos := i * 4 + 3, trk_sec := i,
          rd_sec_pos := (off - g.idam_sz - g.dam_sz_pre) / 1024,
          decode_data_pos := (off - g.idam_sz - g.dam_sz_pre) / 1024,
          crc := 0xffff,
          decode_off := (off - g.idam_sz - g.dam_sz_pre) % 1024 }
      else
        { decode_pos := i * 4 + 4, trk_sec := (i + 1) % nr, rd_sec_pos := 0,
          decode_data_pos := 0, crc := 0xffff,
          decode_off := off - g.idam_sz - g.dam_sz_pre - sec_sz n }
    | (_, off, none) =>
      { decode_pos := nr * 4 + 1, trk_sec := 0, rd_sec_pos := 0,
        decode_data_pos := off / 1024, crc := 0xffff, decode_off := off % 1024 }

/-- The decoder-relevant outputs of `mfm_prep_track`. -/
structure PrepResult where
  gap_2 : ℕ
  gap_3 : ℕ
  gap_4a : ℕ
  idx_sz : ℕ
  idam_sz : ℕ
  dam_sz_pre : ℕ
  dam_sz_post : ℕ
  data_rate : ℕ
  tracklen : ℕ
  tracklen_bc : ℕ
  gap_4 : ℕ

/-- `mfm_prep_track` assembled from the steps above. -/
def mfm_prep_track (trk : RawTrk) (pcs : ℕ) : PrepResult :=
  { gap_2 := mfmG2f trk pcs, gap_3 := mfmG3f trk pcs, gap_4a := mfmG4a trk,
    idx_sz := mfmIdxSz trk, idam_sz := mfmIdamSz trk pcs,
    dam_sz_pre := mfmDamSzPre, dam_sz_post := mfmDamSzPost trk pcs,
    data_rate := mfmRate trk pcs, tracklen := mfmTracklen trk pcs,
    tracklen_bc := mfmTracklenBc trk pcs, gap_4 := mfmGap4 trk pcs }

/-- The XDF 3.5" HD cylinder-N head-1 track layout as installed by
`xdf_open` (`add_track_layout` zero-fills, then sets `interleave = 1`; gaps
stay at the `-1` auto default, `has_iam` stays FALSE, `data_rate` 0,
`rpm` defaulted to 300 by `raw_seek_track`; size codes 4, 2, 3, 6). -/
def xdfCnH1Trk : RawTrk := ⟨-1, -1, -1, false, 300, 0, [4, 2, 3, 6]⟩

/-- The decoder geometry of the XDF cylinder-N head-1 track:
`xdf_setup_track` sets `track_delay_bc = head1_shift_bc = 10000`; the
encoder sizes come from `mfm_prep_track`; interleave 1 with no skew gives
the identity `sec_map`. -/
def xdfCnH1Geom : DecoderGeom :=
  { track_delay_bc := 10000,
    tracklen_bc := (mfm_prep_track xdfCnH1Trk 0).tracklen_bc,
    idx_sz := (mfm_prep_track xdfCnH1Trk 0).idx_sz,
    idam_sz := (mfm_prep_track xdfCnH1Trk 0).idam_sz,
    dam_sz_pre := (mfm_prep_track xdfCnH1Trk 0).dam_sz_pre,
    dam_sz_post := (mfm_prep_track xdfCnH1Trk 0).dam_sz_post,
    sec_map := [0, 1, 2, 3],
    sec_n := [4, 2, 3, 6] }

lemma foldl_add_eq_sum (f : ℕ → ℕ) (l : List ℕ) (a : ℕ) :
    l.foldl (fun acc n => acc + f n) a = a + (l.map f).sum := by
  induction l generalizing a with
  | nil => simp
  | cons x xs ih => simp [ih, Nat.add_assoc]

lemma sum_map_add_const (c : ℕ) (f : ℕ → ℕ) (l : List ℕ) :
    (l.map fun n => c + f n).sum = l.length * c + (l.map f).sum := by
  induction l with
  | nil => simp
  | cons x xs ih => simp [ih]; ring

lemma encTracklen_eq (idx idam pre post : ℕ) (secs : List ℕ) :
    encTracklen idx idam pre post secs =
      (idx + secs.length * (idam + pre + post) + (secs.map sec_sz).sum) * 16 := by
  unfold encTracklen
  rw [foldl_add_eq_sum (fun n => idam + pre + sec_sz n + post)]
  have : (secs.map fun n => idam + pre + sec_sz n + post).sum =
      secs.length * (idam + pre + post) + (secs.map sec_sz).sum := by
    have h := sum_map_add_const (idam + pre + post) sec_sz secs
    rw [← h]
    congr 1
    apply List.map_congr_left
    intro n _
    ring
  rw [this]
  ring_nf

lemma mfmTracklen_dvd16 (trk : RawTrk) (pcs : ℕ) : 16 ∣ mfmTracklen trk pcs := by
  unfold mfmTracklen mfmTracklen1 mfmTracklen0
  have h0 : 16 ∣ encTracklen (mfmIdxSz trk) (mfmIdamSzI trk pcs) mfmDamSzPre
      (mfmDamSzPostI trk pcs) trk.sec_n := by
    unfold encTracklen
    exact dvd_mul_left 16 _
  split_ifs
  · exact dvd_add (dvd_add h0 ((dvd_mul_right 16 _).mul_right _))
      ((dvd_mul_right 16 _).mul_right _)
  · exact dvd_add h0 ((dvd_mul_right 16 _).mul_right _)

lemma mfmTracklenBc_dvd32 (trk : RawTrk) (pcs : ℕ) : 32 ∣ mfmTracklenBc trk pcs :=
  Dvd.intro_left _ rfl

lemma mfmTracklen_le_bc (trk : RawTrk) (pcs : ℕ) :
    mfmTracklen trk pcs ≤ mfmTracklenBc trk pcs := by
  unfold mfmTracklenBc
  have hmax : mfmTracklen trk pcs ≤ max (mfmTarget trk pcs) (mfmTracklen trk pcs) :=
    le_max_right _ _
  have hd := Nat.div_add_mod (max (mfmTarget trk pcs) (mfmTracklen trk pcs) + 31) 32
  have hm := Nat.mod_lt (max (mfmTarget trk pcs) (mfmTracklen trk pcs) + 31)
    (show 0 < 32 by decide)
  omega

/-! ## Raw-word codec and CRC (external collaborators of img.c) -/

/-- Modelled from the spec: `mfmtobin` (defined outside this file) extracts
the eight data bits of a 16-bit raw word — the even-numbered bitcells, the
odd ones being clocks (FM sets every clock via `| 0xaaaa`). -/
def mfmtobin (w : ℕ) : ℕ :=
  (List.range 8).foldl (fun a i => a + if w.testBit (2 * i) then 2 ^ i else 0) 0

/-- Modelled from the spec: `mfmtab` (defined outside this file), the
256-entry MFM encoding table: data bit `i` of the byte occupies bitcell
`2i`; clock bitcell `2i+1` is set exactly when both adjacent data bits are
clear, the topmost clock assuming a preceding 0 data bit (the emitters'
boundary masking `new & ~(prev << 15)` corrects that assumption). -/
def mfmtab (b : ℕ) : ℕ :=
  (List.range 8).foldl (fun a i => a + if b.testBit i then 2 ^ (2 * i) else 0) 0
  + (List.range 7).foldl
      (fun a i => a + if ¬b.testBit i ∧ ¬b.testBit (i + 1) then 2 ^ (2 * i + 1) else 0) 0
  + (if ¬b.testBit 7 then 2 ^ 15 else 0)

/-- Modelled from the spec: FM data bytes are emitted as
`mfmtab[b] | 0xaaaa` (every odd bitcell carries a clock). -/
def fmByte (b : ℕ) : ℕ := mfmtab b ||| 0xaaaa

/-- Modelled from the spec: `fm_sync(dat, clk)` (defined outside this file)
interleaves a data byte with an explicit clock byte, producing the FM
address-mark raw words with their characteristic missing clocks. -/
def fm_sync (dat clk : ℕ) : ℕ :=
  (List.range 8).foldl (fun a i => a + if dat.testBit i then 2 ^ (2 * i) else 0) 0
  + (List.range 8).foldl (fun a i => a + if clk.testBit i then 2 ^ (2 * i + 1) else 0) 0

/-- Modelled from the spec: the FM address-mark clock pattern
`FM_SYNC_CLK` (defined outside this file; the standard System-3740 value). -/
def FM_SYNC_CLK : ℕ := 0xc7

/-- Modelled from the spec: one shift of the 16-bit CRC-16/CCITT register
(polynomial `0x1021`, MSB first): double the register and, on carry out of
bit 15, reduce by the polynomial (`0x11021` clears the carry bit and xors
in `0x1021`).  Matching on the doubled value keeps kernel evaluation
call-by-value. -/
def crc16_step (c : ℕ) : ℕ :=
  match 2 * c with
  | 0 => 0
  | d + 1 => if 65536 ≤ d + 1 then ((d + 1) ^^^ 0x11021) % 65536 else d + 1

/-- Modelled from the spec: one byte of CRC-16/CCITT: xor the byte into the
top of the register, then shift eight times. -/
def crc16_byte (crc b : ℕ) : ℕ :=
  crc16_step (crc16_step (crc16_step (crc16_step (crc16_step (crc16_step
    (crc16_step (crc16_step ((crc ^^^ ((b % 256) <<< 8)) % 65536))))))))

/-- Modelled from the spec: `crc16_ccitt(buf, len, init)` over a byte list
(a left fold of `crc16_byte`; the running register is forced to a numeral
at every step so kernel evaluation stays tail-recursive). -/
def crc16_ccitt (bytes : List ℕ) (crc : ℕ) : ℕ :=
  match bytes with
  | [] => crc
  | b :: rest =>
    match crc16_byte crc b with
    | 0 => crc16_ccitt rest 0
    | c + 1 => crc16_ccitt rest (c + 1)

lemma crc16_ccitt_cons (b : ℕ) (rest : List ℕ) (crc : ℕ) :
    crc16_ccitt (b :: rest) crc = crc16_ccitt rest (crc16_byte crc b) := by
  rw [crc16_ccitt]
  rcases h : crc16_byte crc b with _ | c <;> simp [h]

lemma crc16_ccitt_eq_foldl (bytes : List ℕ) (crc : ℕ) :
    crc16_ccitt bytes crc = bytes.foldl crc16_byte crc := by
  induction bytes generalizing crc with
  | nil => rfl
  | cons b rest ih => rw [crc16_ccitt_cons, List.foldl_cons, ih]

/-- Modelled from the spec: the running CRC seed after the MFM DAM preamble
`A1 A1 A1 FB`. -/
def MFM_DAM_CRC : ℕ := crc16_ccitt [0xa1, 0xa1, 0xa1, 0xfb] 0xffff

/-- Modelled from the spec: the running CRC seed after the FM DAM byte
`FB`. -/
def FM_DAM_CRC : ℕ := crc16_ccitt [0xfb] 0xffff

/-- Modelled from the spec: `mfm_ring_to_bin(buf, bufmask, c, wrbuf, nr)`
(defined outside this file) decodes `nr` consecutive raw words of the ring
starting at word index `c` into `nr` data bytes. -/
def mfm_ring_to_bin (buf : ℕ → ℕ) (bufmask c nr : ℕ) : List ℕ :=
  (List.range nr).map fun k => mfmtobin (buf ((c + k) &&& bufmask))

/-- `process_data`: complement every byte when the track has
`invert_data` set (the C code complements 32-bit words in place, which is
the bytewise complement). -/
def process_data (invert : Bool) (bytes : List ℕ) : List ℕ :=
  if invert then bytes.map fun b => b ^^^ 0xff else bytes

/-! ## Write path: the DAM branch of `raw_write_track` (img.c) -/

/-- The DAM payload loop of `raw_write_track`:
```
for (todo = sec_sz; todo != 0; todo -= nr) {
    nr = min_t(unsigned int, todo, 1024);
    mfm_ring_to_bin(buf, bufmask, c, wrbuf, nr);
    c += nr;
    crc = crc16_ccitt(wrbuf, nr, crc);
    process_data(im, wrbuf, nr);
    F_write(&im->fp, wrbuf, nr, NULL);
}
```
Returns the final ring cursor, the running CRC, and the `F_write` chunks in
order (the file cursor advances across chunks, so consecutive chunks land at
consecutive offsets).  `fuel` bounds the iteration count; every step
consumes at least one byte of `todo`, so a fuel of `todo` is always
enough. -/
def damWriteLoopF (buf : ℕ → ℕ) (bufmask : ℕ) (invert : Bool) :
    ℕ → ℕ → ℕ → ℕ → ℕ × ℕ × List (List ℕ)
  | 0, _, c, crc => (c, crc, [])
  | fuel + 1, todo, c, crc =>
    if todo = 0 then (c, crc, [])
    else
      let nr := min todo 1024
      let chunk := mfm_ring_to_bin buf bufmask c nr
      let rest := damWriteLoopF buf bufmask invert fuel (todo - nr) (c + nr)
        (crc16_ccitt chunk crc)
      (rest.1, rest.2.1, process_data invert chunk :: rest.2.2)

/-- The DAM payload loop with its (sufficient) fuel of `todo`. -/
def damWriteLoop (buf : ℕ → ℕ) (bufmask : ℕ) (invert : Bool)
    (todo c crc : ℕ) : ℕ × ℕ × List (List ℕ) :=
  damWriteLoopF buf bufmask invert todo todo c crc

/-- The context of `raw_write_track` needed by the DAM branch. -/
structure WriteCtx where
  sync_fm : Bool
  bufmask : ℕ
  buf : ℕ → ℕ
  invert_data : Bool
  trk_off : ℕ
  file_sec_offsets : Option (ℕ → ℕ)
  sec_n : List ℕ

/-- The observable outcome of one DAM-branch execution. -/
structure DamOutcome where
  c : ℕ
  seek_off : ℕ
  writes : List (List ℕ)
  crc : ℕ
  crc_logged : Bool
  write_sector : ℤ

/-- The `case 0xfb` (DAM) handler of `raw_write_track`, from the point
where the logical sector `sec_nr` is known (`im->img.write_sector`, or the
angle-based fallback):
```
sec_sz = sec_sz(im->img.sec_info[sec_nr].n);
if ((int16_t)(p - c) < (sec_sz + 2)) { c = sc; goto out; }      -- none
crc = (im->sync == SYNC_fm) ? FM_DAM_CRC : MFM_DAM_CRC;
off = file_sec_offsets ? file_sec_offsets[sec_nr]
                       : sum of sec_sz over sec_info[0..sec_nr);
F_lseek(&im->fp, im->img.trk_off + off);
<payload loop>            -- damWriteLoop
mfm_ring_to_bin(buf, bufmask, c, wrbuf, 2); c += 2;
crc = crc16_ccitt(wrbuf, 2, crc);
if (crc != 0) printk("IMG Bad CRC: ...");                        -- log only
im->img.write_sector = -2;
```
`none` models the rewind-and-return when the ring does not yet hold the
whole payload plus CRC. -/
def dam_branch (ctx : WriteCtx) (sec_nr c p : ℕ) : Option DamOutcome :=
  let ssz := sec_sz (ctx.sec_n.getD sec_nr 0)
  if p - c < ssz + 2 then none
  else
    let crc0 := if ctx.sync_fm then FM_DAM_CRC else MFM_DAM_CRC
    let off := match ctx.file_sec_offsets with
      | some offs => offs sec_nr
      | none => ((ctx.sec_n.take sec_nr).map sec_sz).sum
    let L := damWriteLoop ctx.buf ctx.bufmask ctx.invert_data ssz c crc0
    let crcBytes := mfm_ring_to_bin ctx.buf ctx.bufmask L.1 2
    let crc2 := crc16_ccitt crcBytes L.2.1
    some { c := L.1 + 2, seek_off := ctx.trk_off + off, writes := L.2.2,
           crc := crc2, crc_logged := crc2 != 0, write_sector := -2 }

lemma mfm_ring_to_bin_append (buf : ℕ → ℕ) (mask c a b : ℕ) :
    mfm_ring_to_bin buf mask c (a + b) =
      mfm_ring_to_bin buf mask c a ++ mfm_ring_to_bin buf mask (c + a) b := by
  unfold mfm_ring_to_bin
  rw [List.range_add, List.map_append, List.map_map]
  congr 1
  apply List.map_congr_left
  intro k _
  simp [Function.comp, Nat.add_assoc]

lemma process_data_append (invert : Bool) (l1 l2 : List ℕ) :
    process_data invert (l1 ++ l2) =
      process_data invert l1 ++ process_data invert l2 := by
  unfold process_data
  split <;> simp

lemma damWriteLoopF_flatten (buf : ℕ → ℕ) (mask : ℕ) (invert : Bool) :
    ∀ fuel todo c crc, todo ≤ fuel →
      (damWriteLoopF buf mask invert fuel todo c crc).2.2.flatten =
        process_data invert (mfm_ring_to_bin buf mask c todo) ∧
      (damWriteLoopF buf mask invert fuel todo c crc).1 = c + todo := by
  intro fuel
  induction fuel with
  | zero =>
    intro todo c crc hle
    obtain rfl : todo = 0 := by omega
    simp [damWriteLoopF, mfm_ring_to_bin, process_data]
  | succ fuel ih =>
    intro todo c crc hle
    rw [damWriteLoopF]
    by_cases h0 : todo = 0
    · simp [h0, mfm_ring_to_bin, process_data]
    · simp only [h0, if_false]
      obtain ⟨hj, hc⟩ := ih (todo - min todo 1024) (c + min todo 1024)
        (crc16_ccitt (mfm_ring_to_bin buf mask c (min todo 1024)) crc)
        (by omega)
      constructor
      · simp only [List.flatten_cons, hj]
        rw [← process_data_append, ← mfm_ring_to_bin_append]
        congr 2
        omega
      · simp only [hc]
        omega

lemma damWriteLoop_flatten (buf : ℕ → ℕ) (mask : ℕ) (invert : Bool)
    (todo c crc : ℕ) :
    (damWriteLoop buf mask invert todo c crc).2.2.flatten =
      process_data invert (mfm_ring_to_bin buf mask c todo) ∧
    (damWriteLoop buf mask invert todo c crc).1 = c + todo :=
  damWriteLoopF_flatten buf mask invert todo todo c crc (le_refl todo)

/-! ## Read path: `img_fetch_data`, `mfm_read_track`, `fm_read_track` (img.c) -/

/-- `#define FM_GAP_1 26` (post-IAM). -/
def FM_GAP_1 : ℕ := 26

/-- `#define FM_GAP_2 11` (post-IDAM). -/
def FM_GAP_2 : ℕ := 11

/-- `#define FM_GAP_SYNC 6`. -/
def FM_GAP_SYNC : ℕ := 6

/-- The per-track environment the read path consults: track fields
(`trk->...` after `mfm_prep_track`/`fm_prep_track`), the `im->img` encoder
sizes, the rotational `sec_map`, the `sec_info` `r`/`n` arrays (logical
order), and the image file. -/
structure ReadEnv where
  nr_sectors : ℕ
  gap_2 : ℕ
  gap_3 : ℕ
  gap_4a : ℕ
  has_iam : Bool
  head : ℕ
  sec_map : List ℕ
  sec_r : List ℕ
  sec_n : List ℕ
  idx_sz : ℕ
  idam_sz : ℕ
  dam_sz_pre : ℕ
  dam_sz_post : ℕ
  gap_4 : ℕ
  post_crc_syncs : ℕ
  invert_data : Bool
  trk_off : ℕ
  file_sec_offsets : Option (ℕ → ℕ)
  file : ℕ → ℕ
  cur_track : ℕ

/-- The mutable read-path state: the decoded-data buffer (`read_data`), the
raw-bitcell ring (`read_bc`, producer/consumer in bitcells, contents as
host-order raw words by masked word index), and the decoder cursor.
`decode_pos` is an integer because the pre-index branch can assign `-1`
(which the trailing increment turns into 0). -/
structure ReadState where
  rd_prod : ℕ
  rd_cons : ℕ
  rd_buf : List ℕ
  bc_prod : ℕ
  bc_cons : ℕ
  bc_len : ℕ
  bc_ring : ℕ → ℕ
  decode_pos : ℤ
  decode_data_pos : ℕ
  trk_sec : ℕ
  rd_sec_pos : ℕ
  crc : ℕ

/-- `img_fetch_data` translated from the source: when the decoded-data
buffer is empty, read up to 1024 bytes of the next rotational sector's
payload from the file (at `trk_off` plus the sector's offset plus the
intra-sector position), apply `process_data`, and advance
`rd_sec_pos`/`trk_sec` and the producer index. -/
def img_fetch_data (env : ReadEnv) (s : ReadState) : ReadState :=
  if env.nr_sectors = 0 ∨ s.rd_prod ≠ s.rd_cons then s
  else
    let sec_i := env.sec_map.getD s.trk_sec 0
    let off0 : ℕ := match env.file_sec_offsets with
      | some offs => offs sec_i
      | none => ((env.sec_n.take sec_i).map sec_sz).sum
    let off := off0 + s.rd_sec_pos * 1024
    let len := sec_sz (env.sec_n.getD sec_i 0) - s.rd_sec_pos * 1024
    let step : ℕ × ℕ × ℕ :=
      if len > 1024 then (1024, s.rd_sec_pos + 1, s.trk_sec)
      else (len, 0, if s.trk_sec + 1 ≥ env.nr_sectors then 0 else s.trk_sec + 1)
    { s with
      rd_buf := process_data env.invert_data
        ((List.range step.1).map fun k => env.file (env.trk_off + off + k)),
      rd_sec_pos := step.2.1, trk_sec := step.2.2,
      rd_prod := s.rd_prod + 1 }

/-- The MFM `emit_raw` loop over a word list:
`bc_b[bc_p++ & bc_mask] = htobe16(_r & ~(pr << 15)); pr = _r;`
(the byte-order conversion cancels against the consumer's `be16toh`; only
bit 0 of `pr` reaches bit 15 after the C integer promotion). -/
def emitRaws (mask : ℕ) : List ℕ → (ℕ → ℕ) → ℕ → ℕ → (ℕ → ℕ) × ℕ × ℕ
  | [], ring, p, pr => (ring, p, pr)
  | w :: ws, ring, p, pr =>
    emitRaws mask ws
      (fun j => if j = (p &&& mask) then w &&& (0xffff ^^^ ((pr &&& 1) <<< 15))
                else ring j)
      (p + 1) w

/-- The FM `emit_raw` loop (no boundary masking):
`bc_b[bc_p++ & bc_mask] = htobe16(_r);`. -/
def emitRawsFM (mask : ℕ) : List ℕ → (ℕ → ℕ) → ℕ → (ℕ → ℕ) × ℕ
  | [], ring, p => (ring, p)
  | w :: ws, ring, p =>
    emitRawsFM mask ws (fun j => if j = (p &&& mask) then w else ring j) (p + 1)

/-- `emit_byte(b)` = `emit_raw(mfmtab[(uint8_t)b])`, over a byte list. -/
def mfmBytes (l : List ℕ) : List ℕ := l.map mfmtab

/-- FM `emit_byte(b)` = `emit_raw(mfmtab[(uint8_t)b] | 0xaaaa)`. -/
def fmBytes (l : List ℕ) : List ℕ := l.map fmByte

/-- `mfm_read_track` translated from the source.  Returns `FALSE` (leaving
the ring producer and the decoder cursor untouched) whenever the raw-bitcell
ring lacks space for the next logical unit; otherwise emits that unit,
advances `decode_pos`, and publishes the new producer index.  `pr` is the
previously emitted raw word `bc_b[(bc_p-1) & bc_mask]`: the C index
arithmetic wraps modulo the power-of-two ring size, which adding `bc_len`
before the subtraction reproduces on naturals. -/
def mfm_read_track (env : ReadEnv) (s0 : ReadState) : Bool × ReadState :=
  let s := img_fetch_data env s0
  let bc_p := s.bc_prod / 16
  let bc_c := s.bc_cons / 16
  let bc_len := s.bc_len / 2
  let bc_mask := bc_len - 1
  let bc_space := bc_len - (bc_p - bc_c) % 65536
  let pr := s.bc_ring ((bc_p + bc_len - 1) &&& bc_mask)
  if s.decode_pos = 0 then
    /- Post-index track gap -/
    if bc_space < env.idx_sz then (false, s)
    else
      let ws := mfmBytes (List.replicate env.gap_4a 0x4e) ++
        (if env.has_iam then
          mfmBytes (List.replicate MFM_GAP_SYNC 0x00) ++
          List.replicate 3 0x5224 ++ mfmBytes [0xfc] ++
          mfmBytes (List.replicate MFM_GAP_1 0x4e)
        else [])
      let R := emitRaws bc_mask ws s.bc_ring bc_p pr
      (true,
       { s with
         bc_ring := R.1,
         bc_prod := R.2.1 * 16,
         decode_pos := s.decode_pos + 1 })
  else if s.decode_pos = (env.nr_sectors * 4 + 1 : ℤ) then
    /- Pre-index track gap -/
    let sz0 := env.gap_4 - s.decode_data_pos * 1024
    if bc_space < min sz0 1024 then (false, s)
    else
      let step : ℕ × ℕ × ℤ :=
        if sz0 > 1024 then (1024, s.decode_data_pos + 1, s.decode_pos - 1)
        else (sz0, 0, if env.idx_sz ≠ 0 then -1 else 0)
      let R := emitRaws bc_mask (mfmBytes (List.replicate step.1 0x4e))
        s.bc_ring bc_p pr
      (true,
       { s with
         bc_ring := R.1,
         bc_prod := R.2.1 * 16,
         decode_data_pos := step.2.1,
         decode_pos := step.2.2 + 1 })
  else
    let j := (s.decode_pos - 1).toNat
    let sec_i := env.sec_map.getD (j / 4) 0
    let r := env.sec_r.getD sec_i 0
    let n := env.sec_n.getD sec_i 0
    match j % 4 with
    | 0 =>
      /- IDAM -/
      if bc_space < env.idam_sz then (false, s)
      else
        let cN := env.cur_track / 2
        let h := if env.head ≠ 0 then env.head - 1 else env.cur_track % 2
        let idam := [0xa1, 0xa1, 0xa1, 0xfe, cN, h, r, n]
        let crc := crc16_ccitt idam 0xffff
        let ws := mfmBytes (List.replicate MFM_GAP_SYNC 0x00) ++
          List.replicate 3 0x4489 ++ mfmBytes [0xfe, cN, h, r, n] ++
          mfmBytes [crc / 256 % 256, crc % 256] ++
          List.replicate env.post_crc_syncs 0x4489 ++
          mfmBytes (List.replicate env.gap_2 0x4e)
        let R := emitRaws bc_mask ws s.bc_ring bc_p pr
        (true,
       { s with
         bc_ring := R.1,
         bc_prod := R.2.1 * 16,
         decode_pos := s.decode_pos + 1 })
    | 1 =>
      /- DAM preamble -/
      if bc_space < env.dam_sz_pre then (false, s)
      else
        let ws := mfmBytes (List.replicate MFM_GAP_SYNC 0x00) ++
          List.replicate 3 0x4489 ++ mfmBytes [0xfb]
        let R := emitRaws bc_mask ws s.bc_ring bc_p pr
        (true,
       { s with
         bc_ring := R.1,
         bc_prod := R.2.1 * 16,
         crc := MFM_DAM_CRC,
         decode_pos := s.decode_pos + 1 })
    | 2 =>
      /- Data (in 1024-byte chunks) -/
      let ssz0 := sec_sz n - s.decode_data_pos * 1024
      if bc_space < min ssz0 1024 then (false, s)
      else
        let step : ℕ × ℕ × ℤ :=
          if ssz0 > 1024 then (1024, s.decode_data_pos + 1, s.decode_pos - 1)
          else (ssz0, 0, s.decode_pos)
        let bytes := (List.range step.1).map fun k => s.rd_buf.getD k 0
        let R := emitRaws bc_mask (mfmBytes bytes) s.bc_ring bc_p pr
        (true,
       { s with
         bc_ring := R.1,
         bc_prod := R.2.1 * 16,
         decode_data_pos := step.2.1,
         decode_pos := step.2.2 + 1,
         crc := crc16_ccitt bytes s.crc,
         rd_cons := s.rd_cons + 1 })
    | _ =>
      /- Post Data -/
      if bc_space < env.dam_sz_post then (false, s)
      else
        let ws := mfmBytes [s.crc / 256 % 256, s.crc % 256] ++
          List.replicate env.post_crc_syncs 0x4489 ++
          mfmBytes (List.replicate env.gap_3 0x4e)
        let R := emitRaws bc_mask ws s.bc_ring bc_p pr
        (true,
       { s with
         bc_ring := R.1,
         bc_prod := R.2.1 * 16,
         decode_pos := s.decode_pos + 1 })

/-- `fm_read_track` translated from the source (FM framing: gap filler
`0xff`, sync gap 6, `fm_sync` address marks, no post-CRC syncs, no
boundary masking). -/
def fm_read_track (env : ReadEnv) (s0 : ReadState) : Bool × ReadState :=
  let s := img_fetch_data env s0
  let bc_p := s.bc_prod / 16
  let bc_c := s.bc_cons / 16
  let bc_len := s.bc_len / 2
  let bc_mask := bc_len - 1
  let bc_space := bc_len - (bc_p - bc_c) % 65536
  if s.decode_pos = 0 then
    /- Post-index track gap -/
    if bc_space < env.idx_sz then (false, s)
    else
      let ws := fmBytes (List.replicate env.gap_4a 0xff) ++
        (if env.has_iam then
          fmBytes (List.replicate FM_GAP_SYNC 0x00) ++
          [fm_sync 0xfc 0xd7] ++ fmBytes (List.replicate FM_GAP_1 0xff)
        else [])
      let R := emitRawsFM bc_mask ws s.bc_ring bc_p
      (true,
       { s with
         bc_ring := R.1,
         bc_prod := R.2 * 16,
         decode_pos := s.decode_pos + 1 })
  else if s.decode_pos = (env.nr_sectors * 4 + 1 : ℤ) then
    /- Pre-index track gap -/
    let sz0 := env.gap_4 - s.decode_data_pos * 1024
    if bc_space < min sz0 1024 then (false, s)
    else
      let step : ℕ × ℕ × ℤ :=
        if sz0 > 1024 then (1024, s.decode_data_pos + 1, s.decode_pos - 1)
        else (sz0, 0, if env.idx_sz ≠ 0 then -1 else 0)
      let R := emitRawsFM bc_mask (fmBytes (List.replicate step.1 0xff))
        s.bc_ring bc_p
      (true,
       { s with
         bc_ring := R.1,
         bc_prod := R.2 * 16,
         decode_data_pos := step.2.1,
         decode_pos := step.2.2 + 1 })
  else
    let j := (s.decode_pos - 1).toNat
    let sec_i := env.sec_map.getD (j / 4) 0
    let r := env.sec_r.getD sec_i 0
    let n := env.sec_n.getD sec_i 0
    match j % 4 with
    | 0 =>
      /- IDAM -/
      if bc_space < env.idam_sz then (false, s)
      else
        let cN := env.cur_track / 2
        let h := if env.head ≠ 0 then env.head - 1 else env.cur_track % 2
        let idam := [0xfe, cN, h, r, n]
        let crc := crc16_ccitt idam 0xffff
        let ws := fmBytes (List.replicate FM_GAP_SYNC 0x00) ++
          [fm_sync 0xfe FM_SYNC_CLK] ++ fmBytes [cN, h, r, n] ++
          fmBytes [crc / 256 % 256, crc % 256] ++
          fmBytes (List.replicate env.gap_2 0xff)
        let R := emitRawsFM bc_mask ws s.bc_ring bc_p
        (true,
       { s with
         bc_ring := R.1,
         bc_prod := R.2 * 16,
         decode_pos := s.decode_pos + 1 })
    | 1 =>
      /- DAM preamble -/
      if bc_space < env.dam_sz_pre then (false, s)
      else
        let ws := fmBytes (List.replicate FM_GAP_SYNC 0x00) ++
          [fm_sync 0xfb FM_SYNC_CLK]
        let R := emitRawsFM bc_mask ws s.bc_ring bc_p
        (true,
       { s with
         bc_ring := R.1,
         bc_prod := R.2 * 16,
         crc := FM_DAM_CRC,
         decode_pos := s.decode_pos + 1 })
    | 2 =>
      /- Data (in 1024-byte chunks) -/
      let ssz0 := sec_sz n - s.decode_data_pos * 1024
      if bc_space < min ssz0 1024 then (false, s)
      else
        let step : ℕ × ℕ × ℤ :=
          if ssz0 > 1024 then (1024, s.decode_data_pos + 1, s.decode_pos - 1)
          else (ssz0, 0, s.decode_pos)
        let bytes := (List.range step.1).map fun k => s.rd_buf.getD k 0
        let R := emitRawsFM bc_mask (fmBytes bytes) s.bc_ring bc_p
        (true,
       { s with
         bc_ring := R.1,
         bc_prod := R.2 * 16,
         decode_data_pos := step.2.1,
         decode_pos := step.2.2 + 1,
         crc := crc16_ccitt bytes s.crc,
         rd_cons := s.rd_cons + 1 })
    | _ =>
      /- Post Data -/
      if bc_space < env.dam_sz_post then (false, s)
      else
        let ws := fmBytes [s.crc / 256 % 256, s.crc % 256] ++
          fmBytes (List.replicate env.gap_3 0xff)
        let R := emitRawsFM bc_mask ws s.bc_ring bc_p
        (true,
       { s with
         bc_ring := R.1,
         bc_prod := R.2 * 16,
         decode_pos := s.decode_pos + 1 })

lemma img_fetch_preserves (env : ReadEnv) (s : ReadState) :
    (img_fetch_data env s).bc_prod = s.bc_prod ∧
    (img_fetch_data env s).decode_pos = s.decode_pos ∧
    (img_fetch_data env s).decode_data_pos = s.decode_data_pos := by
  unfold img_fetch_data
  split <;> exact ⟨rfl, rfl, rfl⟩

/-! ## Claim theorems -/

/-- C2: on the write path, whenever the CRC-16/CCITT check over a DAM
payload plus its two CRC bytes is nonzero, the payload has nevertheless
already been written in full — the `F_write` chunks, issued at consecutive
file positions starting at `trk_off` plus the sector's file offset,
concatenate to the complete decoded (and, when `invert_data`, inverted)
payload of `sec_sz` bytes — the write is not undone (`writes` is exactly
that payload, fixed before the CRC bytes are even read), and the mismatch
is only logged (`crc_logged`). -/
theorem C2_crc_mismatch_persists (ctx : WriteCtx) (sec_nr c p : ℕ)
    (o : DamOutcome) (ho : dam_branch ctx sec_nr c p = some o)
    (hcrc : o.crc ≠ 0) :
    o.writes.flatten =
      process_data ctx.invert_data
        (mfm_ring_to_bin ctx.buf ctx.bufmask c
          (sec_sz (ctx.sec_n.getD sec_nr 0))) ∧
    o.seek_off = ctx.trk_off + (match ctx.file_sec_offsets with
      | some offs => offs sec_nr
      | none => ((ctx.sec_n.take sec_nr).map sec_sz).sum) ∧
    o.crc_logged = true ∧
    o.write_sector = -2 := by
  simp only [dam_branch] at ho
  by_cases hsp : p - c < sec_sz (ctx.sec_n.getD sec_nr 0) + 2
  · rw [if_pos hsp] at ho
    cases ho
  · rw [if_neg hsp] at ho
    have hsub := Option.some.inj ho
    subst hsub
    refine ⟨?_, rfl, ?_, rfl⟩
    · exact (damWriteLoop_flatten ctx.buf ctx.bufmask ctx.invert_data
        (sec_sz (ctx.sec_n.getD sec_nr 0)) c
        (if ctx.sync_fm then FM_DAM_CRC else MFM_DAM_CRC)).1
    · simpa using hcrc

/-- A write context for the C2 witness: MFM, non-inverting, a ring of zero
raw words, one 128-byte sector. -/
def c2WitnessCtx : WriteCtx :=
  { sync_fm := false, bufmask := 0xffff, buf := fun _ => 0,
    invert_data := false, trk_off := 0, file_sec_offsets := none,
    sec_n := [0] }

/-- C2 witness: a DAM of 128 zero bytes with zero CRC bytes fails the CRC
check (residual `0xD7DB`), yet the whole decoded payload is written. -/
theorem C2_crc_mismatch_persists_witness :
    ∃ o, dam_branch c2WitnessCtx 0 0 1000 = some o ∧ o.crc = 0xd7db ∧
      o.writes.flatten =
        process_data c2WitnessCtx.invert_data
          (mfm_ring_to_bin c2WitnessCtx.buf c2WitnessCtx.bufmask 0
            (sec_sz (c2WitnessCtx.sec_n.getD 0 0))) ∧
      o.crc_logged = true := by
  have hV : (dam_branch c2WitnessCtx 0 0 1000).map DamOutcome.crc =
      some 0xd7db := by
    set_option maxRecDepth 4000 in decide
  rcases ho : dam_branch c2WitnessCtx 0 0 1000 with _ | o
  · rw [ho] at hV
    cases hV
  · rw [ho] at hV
    have hcrc : o.crc = 0xd7db := by simpa using hV
    have hmain := C2_crc_mismatch_persists c2WitnessCtx 0 0 1000 o ho
      (by rw [hcrc]; decide)
    exact ⟨o, rfl, hcrc, hmain.1, hmain.2.2.1⟩

/-- C9: whenever `mfm_read_track` or `fm_read_track` returns FALSE because
the raw-bitcell ring lacks space for the next logical unit, the producer
index `bc->prod` and the decoder cursor fields `decode_pos` and
`decode_data_pos` are left exactly as they were — no logical unit is ever
partially emitted (the `img_fetch_data` prefetch may still have advanced
`trk_sec`/`rd_sec_pos`/`rd->prod`). -/
theorem C9_read_track_no_partial_emit (env : ReadEnv) (s : ReadState) :
    (∀ b s', mfm_read_track env s = (b, s') → b = false →
      s'.bc_prod = s.bc_prod ∧ s'.decode_pos = s.decode_pos ∧
      s'.decode_data_pos = s.decode_data_pos) ∧
    (∀ b s', fm_read_track env s = (b, s') → b = false →
      s'.bc_prod = s.bc_prod ∧ s'.decode_pos = s.decode_pos ∧
      s'.decode_data_pos = s.decode_data_pos) := by
  have hf := img_fetch_preserves env s
  constructor
  · intro b s' heq hb
    subst hb
    simp only [mfm_read_track] at heq
    repeat
      first
      | (injection heq with h1 h2
         first
         | exact absurd h1 (by decide)
         | (subst h2
            exact ⟨hf.1, hf.2.1, hf.2.2⟩))
      | split at heq
  · intro b s' heq hb
    subst hb
    simp only [fm_read_track] at heq
    repeat
      first
      | (injection heq with h1 h2
         first
         | exact absurd h1 (by decide)
         | (subst h2
            exact ⟨hf.1, hf.2.1, hf.2.2⟩))
      | split at heq

/-- A read environment and state for the C9 witness: an empty ring
(`bc_len = 0`) cannot hold the 80-byte post-index gap, so both emitters
return FALSE. -/
def c9Env : ReadEnv :=
  { nr_sectors := 0, gap_2 := 22, gap_3 := 84, gap_4a := 80, has_iam := true,
    head := 0, sec_map := [], sec_r := [], sec_n := [], idx_sz := 80,
    idam_sz := 44, dam_sz_pre := 16, dam_sz_post := 86, gap_4 := 510,
    post_crc_syncs := 0, invert_data := false, trk_off := 0,
    file_sec_offsets := none, file := fun _ => 0, cur_track := 0 }

/-- The C9 witness state. -/
def c9State : ReadState :=
  { rd_prod := 0, rd_cons := 0, rd_buf := [], bc_prod := 0, bc_cons := 0,
    bc_len := 0, bc_ring := fun _ => 0, decode_pos := 0,
    decode_data_pos := 0, trk_sec := 0, rd_sec_pos := 0, crc := 0xffff }

/-- C9 witness: both emitters return FALSE on the full ring, and the
producer/decoder fields are unchanged. -/
theorem C9_read_track_no_partial_emit_witness :
    (mfm_read_track c9Env c9State = (false, c9State) ∧
      c9State.bc_prod = c9State.bc_prod ∧
      c9State.decode_pos = c9State.decode_pos ∧
      c9State.decode_data_pos = c9State.decode_data_pos) ∧
    (fm_read_track c9Env c9State = (false, c9State) ∧
      c9State.bc_prod = c9State.bc_prod ∧
      c9State.decode_pos = c9State.decode_pos ∧
      c9State.decode_data_pos = c9State.decode_data_pos) :=
  ⟨⟨rfl, (C9_read_track_no_partial_emit c9Env c9State).1 false c9State rfl rfl⟩,
   ⟨rfl, (C9_read_track_no_partial_emit c9Env c9State).2 false c9State rfl rfl⟩⟩

/-- C10: `im_size` returns `f_size - base_off` when `f_size ≥ base_off` and
`0` when the file is shorter than `base_off`, so it never underflows (it is
always at most `f_size`). -/
theorem C10_im_size (f_size base_off : ℕ) :
    (base_off ≤ f_size → im_size f_size base_off = f_size - base_off) ∧
    (f_size < base_off → im_size f_size base_off = 0) ∧
    im_size f_size base_off ≤ f_size := by
  unfold im_size
  split_ifs <;> refine ⟨?_, ?_, ?_⟩ <;> omega

/-- C10 witness: concrete evaluation at a 1.44M image with a 16-byte header
and at a file shorter than its header. -/
theorem C10_im_size_witness :
    (16 ≤ 1474576 ∧ im_size 1474576 16 = 1474560) ∧
    (8 < 16 ∧ im_size 8 16 = 0) :=
  ⟨⟨by decide, (C10_im_size 1474576 16).1 (by decide)⟩,
   ⟨by decide, (C10_im_size 8 16).2.1 (by decide)⟩⟩

/-- C5: `file_idx` equals the spec's composition of the reverse-side,
sides-swapped and sequential transformations, for every in-range cylinder
and side. -/
theorem C5_file_idx (im : ImgGeom) (cyl side : ℕ)
    (hcyl : cyl < im.nr_cyls) (hside : side < im.nr_sides)
    (hs2 : im.nr_sides ≤ 2) :
    file_idx im cyl side =
      specFileIdx (im.layout.testBit 0) (im.layout.testBit 1)
        (im.layout.testBit 2) (im.layout.testBit 3)
        im.nr_cyls im.nr_sides cyl side := by
  have hside01 : side = 0 ∨ side = 1 := by omega
  unfold file_idx specFileIdx LAYOUT_sequential LAYOUT_sides_swapped LAYOUT_reverse_side
  rcases hside01 with rfl | rfl <;>
    simp only [show (2:ℕ) + 0 = 2 from rfl, show (2:ℕ) + 1 = 3 from rfl,
      and_one_shl_ne_zero_iff, if_true, if_false, reduceIte] <;>
    split_ifs <;> first | contradiction | simp [Nat.sub_sub, Nat.add_comm]

/-- C5 witness: a TI99-style layout (`SEQUENTIAL | REVERSE_SIDE_1`, bits 0
and 3) on an 80-cylinder double-sided image at cylinder 3, side 1. -/
theorem C5_file_idx_witness :
    (3 < 80 ∧ 1 < 2 ∧ 2 ≤ 2) ∧
    file_idx ⟨9, 80, 2⟩ 3 1 =
      specFileIdx ((9:ℕ).testBit 0) ((9:ℕ).testBit 1) ((9:ℕ).testBit 2)
        ((9:ℕ).testBit 3) 80 2 3 1 :=
  ⟨by decide, C5_file_idx ⟨9, 80, 2⟩ 3 1 (by decide) (by decide) (by decide)⟩

/-- C4: the geometry table matcher succeeds if and only if some table entry
admits a cylinder count in its class range whose total size matches the
logical image size, and it returns the first such match: entries are
scanned in table order and cylinder counts in ascending order. -/
theorem C4_geometry_matcher (table : List RawType) (imsz : ℕ) :
    ((raw_type_scan table imsz).isSome ↔
      ∃ t ∈ table, ∃ c, typeMatches t c imsz) ∧
    (∀ t c, raw_type_scan table imsz = some (t, c) →
      typeMatches t c imsz ∧
      (∃ pre post, table = pre ++ t :: post ∧
        ∀ t' ∈ pre, ∀ c', ¬typeMatches t' c' imsz) ∧
      (∀ c', c' < c → ¬typeMatches t c' imsz)) :=
  ⟨raw_type_scan_isSome, fun _ _ h => raw_type_scan_first h⟩

/-- C4 witness: the 1.44M entry (18 sectors, 2 sides, n=2, 80-cyl class)
matched against a 1,474,560-byte image resolves to 80 cylinders. -/
theorem C4_geometry_matcher_witness :
    raw_type_scan [⟨18, 1, 2, 1⟩] 1474560 = some (⟨18, 1, 2, 1⟩, 80) ∧
    typeMatches ⟨18, 1, 2, 1⟩ 80 1474560 :=
  ⟨by decide,
   (((C4_geometry_matcher [⟨18, 1, 2, 1⟩] 1474560).2) ⟨18, 1, 2, 1⟩ 80
     (by decide)).1⟩

/-- C1: for every track selected by `raw_seek_track` with `nr_sectors ≥ 1`
and `interleave ≥ 1`, the construction of `sec_map` terminates and yields a
permutation of `[0, nr_sectors)`: every rotational slot holds some logical
sector, every logical sector occupies some slot, and no sector occupies two
slots. -/
theorem C1_sec_map_permutation (n interleave cyl cskew side hskew : ℕ)
    (hn : 1 ≤ n) (hil : 1 ≤ interleave) :
    ∃ m, raw_sec_map n interleave cyl cskew side hskew = some m ∧
      (∀ j, j < n → ∃ v, v < n ∧ m j = some v) ∧
      (∀ v, v < n → ∃ j, j < n ∧ m j = some v) ∧
      (∀ j1 j2 v, m j1 = some v → m j2 = some v → j1 = j2) := by
  have hinv0 : SecInv n 0 (fun _ => none) := by
    refine ⟨by simp, by simp, by omega, by simp⟩
  obtain ⟨m, hm, hfin⟩ := secMapAux_spec n (fun _ => none)
    ((cyl * cskew + side * hskew) % n) 0 (by omega)
    (Nat.mod_lt _ (by omega)) hinv0
  exact ⟨m, hm, secInv_total hfin, hfin.2.2.1, hfin.2.2.2⟩

/-- C1 witness: the ATR SD track (18 sectors, interleave 9, no skew). -/
theorem C1_sec_map_permutation_witness :
    1 ≤ 18 ∧ 1 ≤ 9 ∧
    (∃ m, raw_sec_map 18 9 0 0 0 0 = some m ∧
      (∀ j, j < 18 → ∃ v, v < 18 ∧ m j = some v) ∧
      (∀ v, v < 18 → ∃ j, j < 18 ∧ m j = some v) ∧
      (∀ j1 j2 v, m j1 = some v → m j2 = some v → j1 = j2)) :=
  ⟨by decide, by decide,
   C1_sec_map_permutation 18 9 0 0 0 0 (by decide) (by decide)⟩

/-- C7: `init_track_map` raises FORMAT-INVALID exactly when
`nr_sides ∉ {1,2}` or `nr_cyls ∉ [1,255]` (given the firmware's read-data
buffer, whose length always exceeds the 1793 bytes needed for the largest
tables plus the reserved 1 KB), and otherwise returns the zero-filled
`trk_map` of `nr_cyls * nr_sides` byte entries. -/
theorem C7_init_track_map (nr_cyls nr_sides read_data_len : ℕ)
    (hlen : 1793 ≤ read_data_len) :
    (init_track_map nr_cyls nr_sides read_data_len = .error () ↔
      (nr_sides < 1 ∨ 2 < nr_sides ∨ nr_cyls < 1 ∨ 255 < nr_cyls)) ∧
    (¬(nr_sides < 1 ∨ 2 < nr_sides ∨ nr_cyls < 1 ∨ 255 < nr_cyls) →
      init_track_map nr_cyls nr_sides read_data_len =
        .ok (List.replicate (nr_cyls * nr_sides) 0)) := by
  by_cases hbad : nr_sides < 1 ∨ 2 < nr_sides ∨ nr_cyls < 1 ∨ 255 < nr_cyls
  · rw [init_track_map, if_pos hbad]
    exact ⟨iff_of_true rfl hbad, fun hgood => absurd hbad hgood⟩
  · have hsz : nr_cyls * nr_sides ≤ 510 := by
      have h1 : nr_cyls ≤ 255 := by omega
      have h2 : nr_sides ≤ 2 := by omega
      calc nr_cyls * nr_sides ≤ 255 * 2 := Nat.mul_le_mul h1 h2
        _ = 510 := rfl
    have hcheck : ¬(align_p (read_data_len - nr_cyls * nr_sides - 256) < 1024) := by
      unfold align_p
      have := Nat.mod_lt (read_data_len - nr_cyls * nr_sides - 256)
        (show 0 < 4 by decide)
      omega
    rw [init_track_map, if_neg hbad, if_neg hcheck]
    exact ⟨iff_of_false (by simp) hbad, fun _ => rfl⟩

/-- C7 witness: an 80-cylinder double-sided geometry against an 8 KB buffer
passes the bounds and yields a 160-entry zeroed map; a 3-sided geometry
dies FORMAT-INVALID. -/
theorem C7_init_track_map_witness :
    1793 ≤ 8192 ∧
    init_track_map 80 2 8192 = .ok (List.replicate 160 0) ∧
    init_track_map 80 3 8192 = .error () :=
  ⟨by decide,
   by
     have h := (C7_init_track_map 80 2 8192 (by decide)).2 (by decide)
     simpa using h,
   ((C7_init_track_map 80 3 8192 (by decide)).1).mpr (by decide)⟩

/-- C6: after `mfm_prep_track`, the final track length in bitcells is the
maximum of the standard length `data_rate*400*300/rpm` (with the final,
possibly inferred, data rate) and the minimum encoded track length — which
equals `16 * (idx_sz + Σ (idam_sz + dam_sz_pre + 128·2^n + dam_sz_post))`
with the final gap values, including the auto-computed `gap_3` — rounded up
to a multiple of 32; and `gap_4 = (tracklen_bc - tracklen) / 16` exactly
(the difference is non-negative and divisible by 16). -/
theorem C6_mfm_track_length (trk : RawTrk) (pcs : ℕ) :
    (mfm_prep_track trk pcs).tracklen =
      16 * ((mfm_prep_track trk pcs).idx_sz +
        (trk.sec_n.map fun n =>
          (mfm_prep_track trk pcs).idam_sz + (mfm_prep_track trk pcs).dam_sz_pre
            + sec_sz n + (mfm_prep_track trk pcs).dam_sz_post).sum) ∧
    (mfm_prep_track trk pcs).tracklen_bc =
      32 * ((max ((mfm_prep_track trk pcs).data_rate * 400 * 300 / trk.rpm)
        (mfm_prep_track trk pcs).tracklen + 31) / 32) ∧
    (mfm_prep_track trk pcs).tracklen ≤ (mfm_prep_track trk pcs).tracklen_bc ∧
    16 * (mfm_prep_track trk pcs).gap_4 =
      (mfm_prep_track trk pcs).tracklen_bc - (mfm_prep_track trk pcs).tracklen := by
  refine ⟨?_, ?_, mfmTracklen_le_bc trk pcs, ?_⟩
  · show mfmTracklen trk pcs = 16 * (mfmIdxSz trk +
      (trk.sec_n.map fun n => mfmIdamSz trk pcs + mfmDamSzPre + sec_sz n
        + mfmDamSzPost trk pcs).sum)
    have hmap : (trk.sec_n.map fun n => mfmIdamSz trk pcs + mfmDamSzPre
        + sec_sz n + mfmDamSzPost trk pcs).sum =
        trk.sec_n.length * (mfmIdamSz trk pcs + mfmDamSzPre + mfmDamSzPost trk pcs)
          + (trk.sec_n.map sec_sz).sum := by
      rw [← sum_map_add_const]
      congr 1
      apply List.map_congr_left
      intro n _
      ring
    rw [hmap]
    unfold mfmTracklen mfmDamSzPost mfmIdamSz mfmTracklen1 mfmTracklen0
    rw [encTracklen_eq]
    split_ifs <;> ring
  · show mfmTracklenBc trk pcs =
      32 * ((max (mfmRate trk pcs * 400 * 300 / trk.rpm) (mfmTracklen trk pcs) + 31) / 32)
    unfold mfmTracklenBc mfmTarget
    ring
  · show 16 * mfmGap4 trk pcs = mfmTracklenBc trk pcs - mfmTracklen trk pcs
    unfold mfmGap4
    have hdvd : 16 ∣ (mfmTracklenBc trk pcs - mfmTracklen trk pcs) :=
      Nat.dvd_sub' (dvd_trans (by decide) (mfmTracklenBc_dvd32 trk pcs))
        (mfmTracklen_dvd16 trk pcs)
    exact Nat.mul_div_cancel' hdvd

/-- C3 counterexample: on the XDF cylinder-N head-1 track
(`track_delay_bc = 10000`, `tracklen_bc = 200000`), `calc_start_pos` at
rotational angle 0 (`cur_bc = 0`) computes `bc = 200000 - 10000 = 190000`
and lands inside the data field of the fourth rotational sector:
`decode_pos = 15`, `trk_sec = 3`, `rd_sec_pos = 7` — not the claimed
all-zero cursor.  (The first conjunct checks that interleave 1 with no skew
indeed yields the identity `sec_map` assumed in `xdfCnH1Geom`.) -/
theorem C3_counterexample :
    ((raw_sec_map 4 1 1 0 1 0).map fun m => (m 0, m 1, m 2, m 3)) =
      some (some 0, some 1, some 2, some 3) ∧
    (calc_start_pos xdfCnH1Geom 0).decode_pos = 15 ∧
    (calc_start_pos xdfCnH1Geom 0).trk_sec = 3 ∧
    (calc_start_pos xdfCnH1Geom 0).rd_sec_pos = 7 ∧
    ¬((calc_start_pos xdfCnH1Geom 0).decode_pos = 0 ∧
      (calc_start_pos xdfCnH1Geom 0).trk_sec = 0 ∧
      (calc_start_pos xdfCnH1Geom 0).rd_sec_pos = 0 ∧
      (calc_start_pos xdfCnH1Geom 0).decode_data_pos = 0 ∧
      (calc_start_pos xdfCnH1Geom 0).crc = 0xffff) := by
  refine ⟨rfl, rfl, rfl, rfl, ?_⟩
  intro h
  exact absurd h.1 (by decide)

/-- C3 (amended): for every track whose `track_delay_bc` is zero and whose
post-index gap is non-empty (`idx_sz > 0`), `calc_start_pos` evaluated at
rotational angle 0 (`cur_bc = 0`) returns the initial decoder cursor
`decode_pos = 0`, `trk_sec = 0`, `rd_sec_pos = 0`, `decode_data_pos = 0`,
`crc = 0xFFFF` (and remaining offset 0).  Tracks with a nonzero
`track_delay_bc` (XDF head 1, cylinders > 0) or with `idx_sz = 0` are
excluded: the counterexample shows the claim fails there. -/
theorem C3_start_pos_zero (g : DecoderGeom)
    (hdelay : g.track_delay_bc = 0) (hidx : 0 < g.idx_sz) :
    calc_start_pos g 0 =
      { decode_pos := 0, trk_sec := 0, rd_sec_pos := 0, decode_data_pos := 0,
        crc := 0xffff, decode_off := 0 } := by
  unfold calc_start_pos
  rw [hdelay]
  norm_num
  omega

/-- C3 witness: the XDF cylinder-N head-0 track (same layout, no track
delay, `idx_sz = 80`). -/
theorem C3_start_pos_zero_witness :
    (DecoderGeom.track_delay_bc
      { track_delay_bc := 0,
        tracklen_bc := (mfm_prep_track xdfCnH1Trk 0).tracklen_bc,
        idx_sz := (mfm_prep_track xdfCnH1Trk 0).idx_sz,
        idam_sz := (mfm_prep_track xdfCnH1Trk 0).idam_sz,
        dam_sz_pre := (mfm_prep_track xdfCnH1Trk 0).dam_sz_pre,
        dam_sz_post := (mfm_prep_track xdfCnH1Trk 0).dam_sz_post,
        sec_map := [0, 1, 2, 3], sec_n := [3, 2, 4, 6] } = 0) ∧
    (0 < DecoderGeom.idx_sz
      { track_delay_bc := 0,
        tracklen_bc := (mfm_prep_track xdfCnH1Trk 0).tracklen_bc,
        idx_sz := (mfm_prep_track xdfCnH1Trk 0).idx_sz,
        idam_sz := (mfm_prep_track xdfCnH1Trk 0).idam_sz,
        dam_sz_pre := (mfm_prep_track xdfCnH1Trk 0).dam_sz_pre,
        dam_sz_post := (mfm_prep_track xdfCnH1Trk 0).dam_sz_post,
        sec_map := [0, 1, 2, 3], sec_n := [3, 2, 4, 6] }) ∧
    calc_start_pos
      { track_delay_bc := 0,
        tracklen_bc := (mfm_prep_track xdfCnH1Trk 0).tracklen_bc,
        idx_sz := (mfm_prep_track xdfCnH1Trk 0).idx_sz,
        idam_sz := (mfm_prep_track xdfCnH1Trk 0).idam_sz,
        dam_sz_pre := (mfm_prep_track xdfCnH1Trk 0).dam_sz_pre,
        dam_sz_post := (mfm_prep_track xdfCnH1Trk 0).dam_sz_post,
        sec_map := [0, 1, 2, 3], sec_n := [3, 2, 4, 6] } 0 =
      { decode_pos := 0, trk_sec := 0, rd_sec_pos := 0, decode_data_pos := 0,
        crc := 0xffff, decode_off := 0 } :=
  ⟨rfl, by decide, C3_start_pos_zero _ rfl (by decide)⟩

/-- C8 counterexample: with header values `sig = 0x0296`,
`size_lo = 0x2C00`, `size_sec = 128` (the claim's input), `atr_open`
computes `sz = 0x2C00 << 4 = 180224 ≥ 130*1024` and therefore selects the
40-1-26 MFM layout at `ATR_RATE(250) = 260` kbps — not the claimed
18-sector FM geometry at 130 kbps. -/
theorem C8_atr_counterexample :
    (atr_open 0x0296 0x2C00 128).map
        (fun g => (g.is_fm, g.nr_sectors, g.data_rate)) =
      some (false, 26, 260) ∧
    (atr_open 0x0296 0x2C00 128).map
        (fun g => (g.is_fm, g.nr_sectors, g.data_rate)) ≠
      some (true, 18, 130) := by
  constructor <;> decide

/-- C8 (amended): a 92,176-byte ATR SD image's header has
`size_lo = 0x1680` (92,160 data bytes / 16); with magic `0x0296`,
`size_lo = 0x1680` and `size_sec = 128`, `atr_open` yields
40 cylinders x 1 side x 18 sectors, FM encoding, `data_rate = 130` kbps,
`invert_data = TRUE`, `base_off = 16`, and all track-0 sectors (in
particular sectors 1-3) carry size code `n = 0`. -/
theorem C8_atr_sd_open :
    atr_open 0x0296 0x1680 128 =
      some { nr_cyls := 40, nr_sides := 1, nr_sectors := 18, is_fm := true,
             data_rate := 130, invert_data := true, base_off := 16,
             interleave := 9,
             trk0_secs := (List.range 18).map fun j => (j + 1, 0),
             trkN_secs := (List.range 18).map fun j => (j + 1, 0) } := by
  decide

end Img
